import Mathlib

/-!
Verification of the deterministic core of the Sales_ottenok bot:
the tokenizer/brand normalizer, the photo selection algorithms, the
order-context state machine and the message debounce buffer, embedded
shallowly from `src/gdrive/photo_mapper.py`, `src/ai/order_manager.py`,
`src/ai/engine.py` and `src/greenapi/webhook.py`.

Python strings are modelled as Lean `String`; `str.lower` is modelled on
the character classes the code actually works over (ASCII letters and
Russian Cyrillic, the only letters in the regex class
`[a-zA-Zа-яА-ЯёЁ0-9]` the tokenizer extracts).  Python `set[str]` is
modelled as a duplicate-free `List String` (membership, cardinality =
length, intersection = filter), dicts of per-chat state as functions
`String → Option _`.
-/

namespace Ottenok

/-- Python `str.lower`, restricted to ASCII `A-Z` and Cyrillic `А-Я`/`Ё`
(the uppercase letters of the tokenizer's character class). -/
def lowerChar (c : Char) : Char :=
  if 65 ≤ c.toNat ∧ c.toNat ≤ 90 then Char.ofNat (c.toNat + 32)
  else if 0x410 ≤ c.toNat ∧ c.toNat ≤ 0x42F then Char.ofNat (c.toNat + 0x20)
  else if c.toNat = 0x401 then Char.ofNat 0x451
  else c

/-- Lowercase an entire string (model of Python `text.lower()`). -/
def lowerStr (s : String) : String := String.mk (s.data.map lowerChar)

/-- The character class `[a-zA-Zа-яА-ЯёЁ0-9]` of the tokenizer's
`re.findall` in `photo_mapper._tokenize`. -/
def isWordChar (c : Char) : Bool :=
  (97 ≤ c.toNat && c.toNat ≤ 122) || (65 ≤ c.toNat && c.toNat ≤ 90) ||
  (48 ≤ c.toNat && c.toNat ≤ 57) ||
  (0x430 ≤ c.toNat && c.toNat ≤ 0x44F) || (0x410 ≤ c.toNat && c.toNat ≤ 0x42F) ||
  c.toNat = 0x451 || c.toNat = 0x401

/-- Helper for `splitRuns`: `acc` holds the word-character run read so far,
in reverse. -/
def splitRunsAux : List Char → List Char → List (List Char)
  | [], acc => if acc = [] then [] else [acc.reverse]
  | c :: cs, acc =>
    if isWordChar c then splitRunsAux cs (c :: acc)
    else if acc = [] then splitRunsAux cs []
    else acc.reverse :: splitRunsAux cs []

/-- Maximal runs of word characters, as `re.findall(r'[a-zA-Zа-яА-ЯёЁ0-9]+', ...)`
returns them. -/
def splitRuns (l : List Char) : List (List Char) := splitRunsAux l []

/-- The words `re.findall(r'[a-zA-Zа-яА-ЯёЁ0-9]+', text.lower())` extracts. -/
def wordsOf (text : String) : List String :=
  (splitRuns (lowerStr text).data).map String.mk

/-- Python `str.strip()` (ASCII whitespace). -/
def isPySpace (c : Char) : Bool :=
  c = ' ' || c = '\t' || c = '\n' || c = '\r' || c.toNat = 11 || c.toNat = 12

/-- Python `s.strip()`: drop whitespace from both ends. -/
def pyStrip (s : String) : String :=
  String.mk (((s.data.dropWhile isPySpace).reverse.dropWhile isPySpace).reverse)

/-- Python `needle in haystack`: substring containment. -/
def containsSub (haystack needle : String) : Bool :=
  decide (needle.data <:+: haystack.data)

/-- A purely numeric word (`w.isdigit()` over the tokenizer's character
class, where digits are `0-9`). -/
def isDigitStr (s : String) : Bool :=
  s.data ≠ [] && s.data.all fun c => 48 ≤ c.toNat && c.toNat ≤ 57

/-- A purely alphabetic word over the tokenizer's character class. -/
def isAlphaStr (s : String) : Bool :=
  s.data ≠ [] && s.data.all fun c =>
    (97 ≤ c.toNat && c.toNat ≤ 122) || (65 ≤ c.toNat && c.toNat ≤ 90) ||
    (0x430 ≤ c.toNat && c.toNat ≤ 0x44F) || (0x410 ≤ c.toNat && c.toNat ≤ 0x42F) ||
    c.toNat = 0x451 || c.toNat = 0x401

/-- First-match association-list lookup (model of Python `dict` lookup on
a table with distinct keys). -/
def lookupTable {α : Type} (w : String) : List (String × α) → Option α
  | [] => none
  | (k, v) :: rest => if w = k then some v else lookupTable w rest

/-- The `_STOP_WORDS` set of `photo_mapper.py`. -/
def _STOP_WORDS : List String :=
  ["покажи", "покажите", "отправь", "отправьте", "скинь", "скиньте",
   "пришли", "пришлите", "хочу", "мне", "есть", "какие", "фото",
   "можно", "нужна", "нужно", "нужны", "что", "как", "где", "для",
   "или", "это", "все", "вас", "ваш", "ваши", "про", "пожалуйста",
   "jpg", "png", "посмотреть", "увидеть", "фотку", "фотки", "фотографию",
   "модели", "показать"]

/-- The `_BRAND_MAP` of `photo_mapper.py`: one input word maps to one or
several canonical tokens (a Python `str` value is a one-element list). -/
def _BRAND_MAP : List (String × List String) :=
  [("шанель", ["chanel"]), ("шанел", ["chanel"]), ("миу", ["miu"]),
   ("луи", ["louis"]), ("вуиттон", ["vuitton"]), ("луивуиттон", ["vuitton"]),
   ("гуччи", ["gucci"]), ("прада", ["prada"]),
   ("диор", ["dior"]), ("баленсиага", ["balenciaga"]), ("фенди", ["fendi"]),
   ("версаче", ["versace"]), ("дольче", ["dolce"]), ("габбана", ["gabbana"]),
   ("ив", ["yves"]), ("сен", ["saint"]), ("лоран", ["laurent"]),
   ("сенлоран", ["laurent"]),
   ("джимми", ["jimmy"]), ("джими", ["jimmy"]), ("чу", ["choo"]), ("чуу", ["choo"]),
   ("джиммичу", ["jimmy", "choo"]), ("джимичу", ["jimmy", "choo"]),
   ("джиммичо", ["jimmy", "choo"]), ("джимичо", ["jimmy", "choo"]),
   ("голден", ["golden"]), ("гус", ["goose"]),
   ("боттега", ["bottega"]), ("венета", ["veneta"]), ("селин", ["celine"]),
   ("лоэве", ["loewe"]), ("валентино", ["valentino"]), ("бурберри", ["burberry"]),
   ("эрмес", ["hermes"]), ("гермес", ["hermes"]),
   ("аркади", ["arcadie"]), ("аркадие", ["arcadie"]),
   ("джамбо", ["jumbo"]), ("джумбо", ["jumbo"]), ("классик", ["classic"]),
   ("флэп", ["flap"]), ("флап", ["flap"]),
   ("балетки", ["балетки"]),
   ("слингбэки", ["slingbacks"]), ("слингбеки", ["slingbacks"]),
   ("стар", ["star"]), ("супер", ["super"]),
   ("суперстар", ["super", "star"]), ("болстар", ["ball", "star"]),
   ("монограм", ["monogram"]), ("монограмм", ["monogram"]),
   ("почетт", ["pochette"]), ("пошет", ["pochette"]), ("фелиси", ["felicie"]),
   ("опиум", ["opyum"]),
   ("азия", ["azia"]), ("азиа", ["azia"]),
   ("саеда", ["saeda"]),
   ("беж", ["беж"]), ("черные", ["черные"]), ("розовые", ["розовые"]),
   ("сумки", ["сумка"]), ("сумку", ["сумка"]), ("сумок", ["сумка"]),
   ("сумочка", ["сумка"]), ("сумочку", ["сумка"]),
   ("кроссовок", ["кроссовки"]), ("кроссовку", ["кроссовки"]),
   ("туфель", ["туфли"]), ("туфлей", ["туфли"]), ("туфлях", ["туфли"]),
   ("балеток", ["балетки"]), ("балетку", ["балетки"])]

/-- The tokens one word of the input contributes, following the branch
order of `photo_mapper._tokenize`: stop words are dropped first, then the
brand map (which also keeps the surface word), then numeric words of
length at least 2, then any word longer than 2 characters. -/
def tokenContrib (w : String) : List String :=
  if w ∈ _STOP_WORDS then []
  else
    match lookupTable w _BRAND_MAP with
    | some mapped => mapped ++ [w]
    | none =>
      if isDigitStr w ∧ 2 ≤ w.length then [w]
      else if 2 < w.length then [w]
      else []

/-- Insertion into a Python-set model: add the element unless present. -/
def insertTok (t : String) (acc : List String) : List String :=
  if t ∈ acc then acc else t :: acc

/-- Model of `photo_mapper._tokenize`: a Python `set` of every word's
contributed tokens, as a duplicate-free list. -/
def _tokenize (text : String) : List String :=
  (wordsOf text).foldr (fun w acc => (tokenContrib w).foldr insertTok acc) []

/-- Model of `photo_mapper.tokenize_text`, the public wrapper. -/
def tokenize_text (text : String) : List String := _tokenize text

theorem mem_insertTok {t s : String} {acc : List String} :
    t ∈ insertTok s acc ↔ t = s ∨ t ∈ acc := by
  unfold insertTok
  split
  · constructor
    · exact Or.inr
    · rintro (rfl | h) <;> simp_all
  · simp

theorem mem_foldr_insertTok {t : String} {l acc : List String} :
    t ∈ l.foldr insertTok acc ↔ t ∈ l ∨ t ∈ acc := by
  induction l with
  | nil => simp
  | cons s l ih => simp [mem_insertTok, ih, or_assoc]

theorem nodup_insertTok {s : String} {acc : List String} (h : acc.Nodup) :
    (insertTok s acc).Nodup := by
  unfold insertTok
  split
  · exact h
  · exact List.Nodup.cons (by assumption) h

theorem nodup_foldr_insertTok {l acc : List String} (h : acc.Nodup) :
    (l.foldr insertTok acc).Nodup := by
  induction l with
  | nil => exact h
  | cons s l ih => exact nodup_insertTok ih

/-- Membership in the token set: a token appears iff some extracted word
contributes it. -/
theorem mem_tokenize_iff (text : String) (t : String) :
    t ∈ _tokenize text ↔ ∃ w ∈ wordsOf text, t ∈ tokenContrib w := by
  unfold _tokenize
  induction wordsOf text with
  | nil => simp
  | cons w ws ih => simp [mem_foldr_insertTok, ih]

/-- The token-set model is duplicate-free, so its length is the Python
set's cardinality. -/
theorem nodup_tokenize (text : String) : (_tokenize text).Nodup := by
  unfold _tokenize
  induction wordsOf text with
  | nil => simp
  | cons w ws ih => exact nodup_foldr_insertTok ih

/-- Cardinality of the overlap of two token sets,
`len(old_tokens & new_tokens)` on the duplicate-free list model. -/
def overlapCard (a b : List String) : Nat := (a.filter (fun t => t ∈ b)).length

/-! ### Order context (`src/ai/order_manager.py`) -/

/-- The order-context record: the six fields `_sanitize_order_context`
carries (`order_type`/`pending_confirm` live outside this record in the
engine's persistence layer). -/
structure OrderCtx where
  city : String
  product : String
  product_type : String
  size : String
  color : String
  address : String
deriving DecidableEq, Repr

instance : Inhabited OrderCtx := ⟨⟨"", "", "", "", "", ""⟩⟩

/-- `order_manager._SIZE_REQUIRED_TYPES`. -/
def _SIZE_REQUIRED_TYPES : List String := ["shoes"]

/-- Model of `order_manager._normalize_product_type`. -/
def _normalize_product_type (value : String) : String :=
  let v := lowerStr (pyStrip value)
  if v ∈ ["shoes", "обувь", "shoe"] then "shoes"
  else if v ∈ ["bag", "bags", "сумка", "сумки"] then "bag"
  else if v ∈ ["accessory", "accessories", "аксессуар", "аксессуары"] then "accessory"
  else if v ∈ ["other", "другое"] then "other"
  else ""

/-- Model of `order_manager._infer_product_type_from_text`. -/
def _infer_product_type_from_text (text : String) : String :=
  let t := lowerStr text
  if containsSub text "👠" || containsSub text "👟" then "shoes"
  else if containsSub text "👜" then "bag"
  else if ["туф", "крос", "ботин", "лофер", "балетк", "обув", "каблук", "лодоч",
           "slingback", "джимми чу", "jimmy choo", "saeda", "azia", "opyum", "опиум",
           "sneaker", "кед"].any (fun x => containsSub t x) then "shoes"
  else if ["сумк", "bag", "chanel 25", "arcadie", "pochette", "flap",
           "кошелек", "кошелёк", "wallet", "monogram", "jumbo"].any
            (fun x => containsSub t x) then "bag"
  else ""

/-- Model of `order_manager._sanitize_order_context`. -/
def _sanitize_order_context (ctx : OrderCtx) : OrderCtx :=
  { city := pyStrip ctx.city
    product := pyStrip ctx.product
    product_type := _normalize_product_type ctx.product_type
    size := pyStrip ctx.size
    color := pyStrip ctx.color
    address := pyStrip ctx.address }

/-- Model of `order_manager._merge_order_context`.  The float comparison
`similarity < 0.5` with `similarity = len(overlap)/max(len(old), len(new))`
is expressed exactly as `2 * |overlap| < max |old| |new|` (the two are
equivalent for the small integer cardinalities involved). -/
def _merge_order_context (base updates : OrderCtx) : OrderCtx :=
  let merged := _sanitize_order_context base
  let incoming := _sanitize_order_context updates
  -- Detect product switch — reset dependent fields
  let merged :=
    if incoming.product ≠ "" ∧ merged.product ≠ "" then
      let old_tokens := tokenize_text merged.product
      let new_tokens := tokenize_text incoming.product
      if old_tokens ≠ [] ∧ new_tokens ≠ [] then
        if 2 * overlapCard old_tokens new_tokens <
            max old_tokens.length new_tokens.length then
          { merged with size := "", color := "", address := "" }
        else merged
      else merged
    else merged
  -- Non-empty incoming values overwrite
  let merged := if incoming.city ≠ "" then { merged with city := incoming.city } else merged
  let merged := if incoming.product ≠ "" then { merged with product := incoming.product } else merged
  let merged := if incoming.size ≠ "" then { merged with size := incoming.size } else merged
  let merged := if incoming.color ≠ "" then { merged with color := incoming.color } else merged
  let merged := if incoming.address ≠ "" then { merged with address := incoming.address } else merged
  let merged :=
    if incoming.product_type ≠ "" then { merged with product_type := incoming.product_type }
    else merged
  if merged.product_type = "" then
    { merged with product_type := _infer_product_type_from_text merged.product }
  else merged

/-- Model of `order_manager._build_missing_fields`. -/
def _build_missing_fields (order_ctx : OrderCtx) (color_required : Bool) : List String :=
  let missing : List String := []
  let missing := if order_ctx.city = "" then missing ++ ["city"] else missing
  let missing := if order_ctx.product = "" then missing ++ ["product"] else missing
  let missing :=
    if order_ctx.product_type ∈ _SIZE_REQUIRED_TYPES ∧ order_ctx.size = "" then
      missing ++ ["size"]
    else missing
  let missing :=
    if color_required ∧ order_ctx.color = "" then missing ++ ["color"] else missing
  -- Адрес запрашиваем ТОЛЬКО после того, как собраны все основные данные
  let basic_fields_collected :=
    order_ctx.city ≠ "" ∧ order_ctx.product ≠ "" ∧
    (order_ctx.product_type ∉ _SIZE_REQUIRED_TYPES ∨ order_ctx.size ≠ "") ∧
    (¬color_required ∨ order_ctx.color ≠ "")
  if basic_fields_collected ∧ order_ctx.address = "" then missing ++ ["address"]
  else missing

/-! ### Photos and the color tables (`src/gdrive/photo_mapper.py`,
`src/ai/engine.py`) -/

/-- A product photo.  The external store's records carry
`{file_id, filename, direct_url}`; the selection logic only ever reads
`file_id` and `filename`, so the model keeps those two. -/
structure Photo where
  file_id : String
  filename : String
deriving DecidableEq, Repr

instance : Inhabited Photo := ⟨⟨"", ""⟩⟩

/-- `photo_mapper._COLOR_PATTERNS`: ordered, first match wins. -/
def _COLOR_PATTERNS : List (String × String) :=
  [("розов", "розовые"), ("pink", "розовые"),
   ("черн", "черные"), ("black", "черные"),
   ("беж", "бежевые"), ("beige", "бежевые"), ("бежев", "бежевые"),
   ("белый", "белые"), ("white", "белые"),
   ("красн", "красные"), ("red", "красные"),
   ("синий", "синие"), ("син", "синие"), ("blue", "синие"),
   ("золот", "золотые"), ("gold", "золотые"),
   ("серебр", "серебряные"), ("silver", "серебряные"),
   ("серый", "серые"), ("gray", "серые"), ("grey", "серые"),
   ("зелен", "зеленые"), ("green", "зеленые"),
   ("коричнев", "коричневые"), ("brown", "коричневые"),
   ("navy", "синие")]

/-- `photo_mapper._COLOR_ORDER`. -/
def _COLOR_ORDER : List String :=
  ["бежевые", "черные", "розовые", "белые", "красные", "синие", "золотые",
   "серебряные", "серые", "зеленые", "коричневые"]

/-- Model of `photo_mapper._color_from_filename`: the first matching color
pattern's key, or `"other"`. -/
def _color_from_filename (filename : String) : String :=
  let name := lowerStr filename
  match _COLOR_PATTERNS.find? (fun p => containsSub name p.1) with
  | some p => p.2
  | none => "other"

/-- The photos of one color group: `by_color[color]` in
`select_photos_with_color_variety`, in input order. -/
def byColor (images : List Photo) (color : String) : List Photo :=
  images.filter (fun img => _color_from_filename img.filename = color)

/-- Whether a color group is non-empty (`color in by_color`). -/
def colorPresent (images : List Photo) (color : String) : Bool :=
  images.any (fun img => _color_from_filename img.filename = color)

/-- Stable insertion of `x` into a sorted list: `x` goes in front of the
first element it may precede. -/
def insertLe {α : Type} (le : α → α → Bool) (x : α) : List α → List α
  | [] => [x]
  | y :: ys => if le x y then x :: y :: ys else y :: insertLe le x ys

/-- Stable insertion sort (the model of Python's stable `sort`/`sorted`). -/
def insSort {α : Type} (le : α → α → Bool) : List α → List α
  | [] => []
  | x :: xs => insertLe le x (insSort le xs)

/-- Lexicographic comparison of code-point lists (Python `str` order). -/
def charListLe : List Char → List Char → Bool
  | [], _ => true
  | _ :: _, [] => false
  | a :: as, b :: bs =>
    if a.toNat < b.toNat then true
    else if b.toNat < a.toNat then false
    else charListLe as bs

/-- Python `sorted` on strings: lexicographic by code point. -/
def sortStrings (l : List String) : List String :=
  insSort (fun a b => charListLe a.data b.data) l

/-- The labels of `images` that are outside `_COLOR_ORDER`, each once, in
first-appearance order (the insertion order of the Python dict's keys). -/
def unlistedColors (images : List Photo) : List String :=
  ((images.map (fun img => _color_from_filename img.filename)).filter
    (fun c => c ∉ _COLOR_ORDER)).foldr insertTok [] |>.reverse

/-- The color iteration order of `select_photos_with_color_variety`:
`_COLOR_ORDER` colors that are present, then the remaining present colors
sorted alphabetically. -/
def colorIterOrder (images : List Photo) : List String :=
  _COLOR_ORDER.filter (fun c => colorPresent images c) ++
    sortStrings (unlistedColors images)

/-- The taking loop of `select_photos_with_color_variety`: for each color
take `min max_per_color (max_total - |result|) |group|` photos until
`max_total` is reached. -/
def takeByColor (images : List Photo) (max_total max_per_color : Nat) :
    List String → List Photo → List Photo
  | [], result => result
  | c :: rest, result =>
    if max_total ≤ result.length then result
    else
      let take := min max_per_color (min (max_total - result.length) (byColor images c).length)
      takeByColor images max_total max_per_color rest (result ++ (byColor images c).take take)

/-- Model of `photo_mapper.select_photos_with_color_variety`.  The Python
default arguments are `max_total=6, max_per_color=2`; `max_total <= 0`
maps to `max_total = 0` on `Nat`. -/
def select_photos_with_color_variety
    (images : List Photo) (max_total : Nat := 6) (max_per_color : Nat := 2) :
    List Photo :=
  if images = [] ∨ max_total = 0 then []
  else
    let result := takeByColor images max_total max_per_color (colorIterOrder images) []
    let result :=
      if result.length < max_total ∧ colorPresent images "other" then
        result ++ (byColor images "other").take
          (min (max_total - result.length) (byColor images "other").length)
      else result
    result.take max_total

/-! ### Engine photo picking (`src/ai/engine.py`) -/

/-- `engine._COLOR_PREFIXES`: color synonym prefix → normalized color key. -/
def _COLOR_PREFIXES : List (String × String) :=
  [("розов", "розовые"), ("pink", "розовые"),
   ("черн", "черные"), ("black", "черные"),
   ("беж", "бежевые"), ("beige", "бежевые"),
   ("бел", "белые"), ("white", "белые"),
   ("красн", "красные"), ("red", "красные"),
   ("синий", "синие"), ("синих", "синие"), ("синие", "синие"),
   ("золот", "золотые"), ("gold", "золотые"),
   ("серебр", "серебряные"), ("silver", "серебряные"),
   ("коричнев", "коричневые"), ("brown", "коричневые"),
   ("зелен", "зеленые"), ("green", "зеленые")]

/-- Model of `engine._dedupe_photos` (inner loop; `seen` is the set of
keys already kept).  The modelled photos carry `file_id` and `filename`,
so the key is `p.file_id or p.filename` (`direct_url` is a third fallback
the selection paths never reach). -/
def dedupeGo (seen : List String) : List Photo → List Photo
  | [] => []
  | p :: rest =>
    let key := if p.file_id ≠ "" then p.file_id else p.filename
    if key = "" ∨ key ∈ seen then dedupeGo seen rest
    else p :: dedupeGo (key :: seen) rest

/-- Model of `engine._dedupe_photos`. -/
def _dedupe_photos (photos : List Photo) : List Photo := dedupeGo [] photos

/-- Model of the `requested_color` branch of `engine._pick_product_photos`
(lines 830-847): filter to photos whose lowercased filename contains a
synonym prefix of the color, dedupe, and return up to `limit` of them.
`limit` is `max_showcase or MAX_PHOTOS_PRODUCT_SHOWCASE` (default 6); the
source maps each kept photo to `{file_id, caption, filename}`, a
per-element projection that changes neither filenames nor count. -/
def pickProductPhotosColor
    (found_photos : List Photo) (requested_color : String) (limit : Nat) :
    List Photo :=
  let color_prefixes := (_COLOR_PREFIXES.filter (fun p => p.2 = requested_color)).map Prod.fst
  let matching := found_photos.filter
    (fun img => color_prefixes.any (fun cp => containsSub (lowerStr img.filename) cp))
  (_dedupe_photos matching).take limit

/-! ### Token-scored photo search (`photo_mapper.find_product_photos`,
lines 242-282) -/

/-- `photo_mapper._RELATED_CATEGORIES`. -/
def _RELATED_CATEGORIES : List (String × List String) := [("туфли", ["балетки"])]

/-- Model of `photo_mapper._match_score`: how many query tokens occur in
the filename's token set. -/
def _match_score (query_tokens : List String) (filename : String) : Nat :=
  overlapCard query_tokens (_tokenize filename)

/-- Expansion of the query tokens through `_RELATED_CATEGORIES`
(`expanded_tokens = query_tokens | extra_tokens`). -/
def expandTokens (query_tokens : List String) : List String :=
  let extra := query_tokens.foldr
    (fun t acc =>
      match lookupTable t _RELATED_CATEGORIES with
      | some rel => rel ++ acc
      | none => acc) []
  query_tokens ++ extra.filter (fun t => t ∉ query_tokens)

/-- The count of meaningful words of the raw query (before stop-word
removal): words not in the stop list that are longer than 2 characters or
appear in the brand map. -/
def meaningfulCount (product_name : String) : Nat :=
  ((wordsOf product_name).filter
    (fun w => w ∉ _STOP_WORDS ∧ (2 < w.length ∨ (lookupTable w _BRAND_MAP).isSome))).length

/-- The minimum acceptable score of the token tier. -/
def minScoreFor (product_name : String) : Nat :=
  if 2 ≤ meaningfulCount product_name then 2 else 1

/-- Every image of the photo index, in iteration order
(`for value in _photo_index.values(): for img in value["images"]`). -/
def allIndexImages (index : List (String × List Photo)) : List Photo :=
  (index.map Prod.snd).flatten

/-- The `scored_images` list of the token tier: every image whose score
reaches the minimum, paired with its score, in index iteration order. -/
def scoredList (all : List Photo) (expanded : List String) (min_score : Nat) :
    List (Nat × Photo) :=
  all.filterMap
    (fun img =>
      let score := _match_score expanded img.filename
      if min_score ≤ score then some (score, img) else none)

/-- The tail of the token tier: sort the scored images stably by
descending score (`scored_images.sort(key=..., reverse=True)` is stable)
and keep exactly the photos tied for the best score. -/
def bestTierResult (scored : List (Nat × Photo)) : List Photo :=
  match insSort (fun a b => b.1 ≤ a.1) scored with
  | [] => []
  | best :: rest => ((best :: rest).filter (fun x => x.1 = best.1)).map Prod.snd

/-- Model of the token-scored tier of `photo_mapper.find_product_photos`
(lines 242-282): score every indexed image, keep scores above the
minimum, return the photos tied for the best score.  Queries with empty
token sets return `[]` (the early return at line 245). -/
def findProductPhotosTokenTier
    (index : List (String × List Photo)) (product_name : String) : List Photo :=
  let query_tokens := _tokenize product_name
  if query_tokens = [] then []
  else
    let expanded := expandTokens query_tokens
    let min_score := minScoreFor product_name
    bestTierResult (scoredList (allIndexImages index) expanded min_score)

/-! ### The pending-confirm flag of one engine turn
(`engine.generate_response`) -/

/-- Model of the effect of one `generate_response` turn on the persisted
`pending_confirm` flag, for a turn that reaches the order-flow section
(engine.py lines 1029-1143 and 1192-1215).  External calls are abstracted
as inputs: `isConfirm` is `_is_order_confirmation(user_message)`,
`isNegative` is `_is_negative_or_undecided(user_message)`, `ctx` the
merged order context, `orderType` the `order_type` value the turn reads
(`""` whenever it came through the merge, which carries only the six
sanitized fields), `colorRequired` the photo-store color predicate,
`stockUnavailable` means the inventory check succeeded and reported the
product unavailable, and `orderSignal` is `ready_to_order or
address_just_collected or llm_ready_to_order`, the guard of the summary
branch.  A pending flag met by a non-confirmation reply is cleared at
line 1042 and, unless a pre-order was pending (early return at lines
1044-1057), the turn FALLS THROUGH and may set the flag true again at
line 1133 or line 1214. -/
def pendingAfterTurn
    (prevPending isConfirm isNegative : Bool) (ctx : OrderCtx) (orderType : String)
    (colorRequired : Bool) (stockUnavailable : Bool) (orderSignal : Bool) : Bool :=
  if prevPending ∧ isConfirm then
    -- lines 1032-1040: client confirmed, flag cleared, early return
    false
  else if prevPending ∧ orderType = "preorder" then
    -- lines 1042-1057: flag cleared; pre-order declined → alternatives, early return
    false
  else
    -- no pending flag, or it was just cleared (line 1042) and the turn continues
    if orderType = "alternatives_offered" ∧ isNegative then
      -- lines 1060-1085: early return, the flag stays cleared
      false
    else
    -- line 1088: a non-negative reply resets `order_type` before the checks
    let orderType := if orderType = "alternatives_offered" then "" else orderType
    let missing := _build_missing_fields ctx colorRequired
    if orderType = "" ∧ ctx.product ≠ "" ∧ ctx.city ≠ "" ∧
        (missing = ["address"] ∨ missing = []) ∧ stockUnavailable then
      -- lines 1097-1143: pre-order offer, `set_order_pending_confirm(chat_id, True)`
      true
    else if missing ≠ [] then
      -- lines 1193-1210: a clarifying question, the flag is not touched
      false
    else if orderSignal then
      -- lines 1211-1215: order summary shown, `set_order_pending_confirm(chat_id, True)`
      true
    else false

/-! ### Message debounce buffer (`src/greenapi/webhook.py`) -/

/-- The module-level buffer state of `webhook.py`: `_message_buffers`,
`_buffer_sender` and `_buffer_timers`, with timer tasks identified by a
creation generation (`nextGen` is the next fresh one). -/
structure BufState where
  buffers : String → Option (List String)
  senders : String → Option String
  timers : String → Option Nat
  nextGen : Nat

/-- The empty initial state. -/
def initBufState : BufState :=
  { buffers := fun _ => none, senders := fun _ => none,
    timers := fun _ => none, nextGen := 0 }

/-- One downstream handler invocation (`_execute_handler`'s arguments). -/
structure Call where
  chat_id : String
  sender : String
  text : String
deriving DecidableEq, Repr

/-- Model of `webhook.process_incoming_message` for an ordinary client
message with aggregation enabled (`MESSAGE_AGGREGATION_DELAY > 0`, not a
manager command): append the text to the chat's buffer, record the sender
on first buffering, cancel any existing timer and start a fresh one. -/
def process_incoming_message (st : BufState) (chat_id sender_name text : String) :
    BufState :=
  let firstMsg := (st.buffers chat_id).isNone
  let senders := fun c =>
    if c = chat_id then (if firstMsg then some sender_name else st.senders chat_id)
    else st.senders c
  let buffers := fun c =>
    if c = chat_id then some ((st.buffers chat_id).getD [] ++ [text])
    else st.buffers c
  { buffers := buffers, senders := senders,
    timers := fun c => if c = chat_id then some st.nextGen else st.timers c,
    nextGen := st.nextGen + 1 }

/-- Model of `webhook._flush_buffer`: pop the chat's buffer, sender and
timer; if any messages were buffered, hand them to the downstream handler
newline-joined with the recorded sender. -/
def _flush_buffer (st : BufState) (chat_id : String) : BufState × Option Call :=
  let messages := (st.buffers chat_id).getD []
  let sender := (st.senders chat_id).getD ""
  let popped : BufState :=
    { buffers := fun c => if c = chat_id then none else st.buffers c,
      senders := fun c => if c = chat_id then none else st.senders c,
      timers := fun c => if c = chat_id then none else st.timers c,
      nextGen := st.nextGen }
  if messages = [] then (popped, none)
  else (popped, some ⟨chat_id, sender, String.intercalate "\n" messages⟩)

/-- An event of the debounce stage: an inbound message, or the elapse of
the sleep of the timer task created as generation `gen`. -/
inductive BufEv where
  | recv (chat sender text : String)
  | fire (chat : String) (gen : Nat)

/-- One event step.  A `fire` of a superseded (cancelled) timer generation
does nothing: `asyncio.Task.cancel` keeps the cancelled task from ever
running `_flush_buffer`. -/
def bufStep (st : BufState) : BufEv → BufState × Option Call
  | .recv c s t => (process_incoming_message st c s t, none)
  | .fire c g => if st.timers c = some g then _flush_buffer st c else (st, none)

/-- Run a sequence of events, collecting the handler invocations. -/
def bufRun (st : BufState) : List BufEv → BufState × List Call
  | [] => (st, [])
  | e :: rest =>
    let (st', call) := bufStep st e
    let (stFinal, calls) := bufRun st' rest
    (stFinal, call.toList ++ calls)

/-- The all-empty update an extraction failure degrades to
(`_extract_order_fields`'s fallback dict sanitizes to this). -/
def emptyUpdate : OrderCtx := ⟨"", "", "", "", "", ""⟩

/-- The first photo of a color group (the one the selector's loop takes
with `max_per_color = 1`). -/
def headPhoto (images : List Photo) (c : String) : Photo := (byColor images c).headI

/-! ## Claims -/

theorem tokenize_empty : tokenize_text "" = [] := rfl

/-- Claim C1, counterexample: with the stored product `"но"` (whose token
set is empty: a two-letter unmapped word) and the update product
`"сумка шанель"`, the claim's similarity `|overlap| / max(|A|, |B|)` is
`0/3 < 0.5`, yet the merge does not clear `size` (the code additionally
requires BOTH token sets non-empty before testing similarity). -/
theorem C1_counterexample :
    (2 * overlapCard (tokenize_text "но") (tokenize_text "сумка шанель") <
      max (tokenize_text "но").length (tokenize_text "сумка шанель").length) ∧
    (_merge_order_context ⟨"алматы", "но", "", "38", "черные", "ул. Абая 1"⟩
      ⟨"", "сумка шанель", "", "", "", ""⟩).size = "38" := by
  decide

/-- Claim C1 (amended): for a context and an update whose only non-empty
field among city/size/color/address is the product, if BOTH products'
token sets are non-empty and the token-set similarity
`|overlap| / max(|A|, |B|)` is below 0.5 (stated integrally as
`2|overlap| < max`), the merge accepts the new product, clears `size`,
`color` and `address`, and preserves `city`. -/
theorem C1_product_switch (base upd : OrderCtx)
    (hA : tokenize_text (pyStrip base.product) ≠ [])
    (hB : tokenize_text (pyStrip upd.product) ≠ [])
    (hsim : 2 * overlapCard (tokenize_text (pyStrip base.product))
        (tokenize_text (pyStrip upd.product)) <
      max (tokenize_text (pyStrip base.product)).length
        (tokenize_text (pyStrip upd.product)).length)
    (hc : pyStrip upd.city = "") (hs : pyStrip upd.size = "")
    (hco : pyStrip upd.color = "") (had : pyStrip upd.address = "") :
    (_merge_order_context base upd).product = pyStrip upd.product ∧
    (_merge_order_context base upd).size = "" ∧
    (_merge_order_context base upd).color = "" ∧
    (_merge_order_context base upd).address = "" ∧
    (_merge_order_context base upd).city = pyStrip base.city := by
  have hA' : pyStrip base.product ≠ "" := by
    intro h; exact hA (by rw [h]; rfl)
  have hB' : pyStrip upd.product ≠ "" := by
    intro h; exact hB (by rw [h]; rfl)
  unfold _merge_order_context
  simp only [_sanitize_order_context, ne_eq, hc, hs, hco, had]
  simp [hA', hB', hA, hB, hsim]
  split_ifs <;> simp

/-- Claim C1, witness: a dissimilar product switch
(`Chanel Jumbo Classic Flap` → `Jimmy Choo Azia 95`) clears the dependent
fields and keeps the city. -/
theorem C1_product_switch_witness :
    (_merge_order_context
        ⟨"Астана", "Chanel Jumbo Classic Flap", "bag", "M", "черный", "ул. Абая 1"⟩
        ⟨"", "Jimmy Choo Azia 95", "", "", "", ""⟩).product =
      pyStrip "Jimmy Choo Azia 95" ∧
    (_merge_order_context
        ⟨"Астана", "Chanel Jumbo Classic Flap", "bag", "M", "черный", "ул. Абая 1"⟩
        ⟨"", "Jimmy Choo Azia 95", "", "", "", ""⟩).size = "" ∧
    (_merge_order_context
        ⟨"Астана", "Chanel Jumbo Classic Flap", "bag", "M", "черный", "ул. Абая 1"⟩
        ⟨"", "Jimmy Choo Azia 95", "", "", "", ""⟩).color = "" ∧
    (_merge_order_context
        ⟨"Астана", "Chanel Jumbo Classic Flap", "bag", "M", "черный", "ул. Абая 1"⟩
        ⟨"", "Jimmy Choo Azia 95", "", "", "", ""⟩).address = "" ∧
    (_merge_order_context
        ⟨"Астана", "Chanel Jumbo Classic Flap", "bag", "M", "черный", "ул. Абая 1"⟩
        ⟨"", "Jimmy Choo Azia 95", "", "", "", ""⟩).city = pyStrip "Астана" :=
  C1_product_switch _ _ (by decide) (by decide) (by decide) rfl rfl rfl rfl

/-- Claim C3, counterexample: on the context `{product = "туфли"}` the
merge with the all-empty update is NOT the sanitized context — merging
recomputes `product_type` (to `"shoes"`) while sanitizing leaves it
empty. -/
theorem C3_counterexample :
    _merge_order_context ⟨"", "туфли", "", "", "", ""⟩ emptyUpdate ≠
      _sanitize_order_context ⟨"", "туфли", "", "", "", ""⟩ := by
  decide

/-- Claim C3 (amended): merging any context with the all-empty update
returns the sanitized context in every field except `product_type`, which
is kept when the sanitized value is non-empty and otherwise recomputed
from the product text (`_merge_order_context`, final two branches).  So
an extraction failure never corrupts existing field values. -/
theorem C3_merge_empty_update (ctx : OrderCtx) :
    _merge_order_context ctx emptyUpdate =
      (if (_sanitize_order_context ctx).product_type = "" then
        { _sanitize_order_context ctx with
            product_type :=
              _infer_product_type_from_text (_sanitize_order_context ctx).product }
      else _sanitize_order_context ctx) := by
  have he : _sanitize_order_context emptyUpdate = ⟨"", "", "", "", "", ""⟩ := rfl
  unfold _merge_order_context
  rw [he]
  simp

/-- Claim C2: the missing-fields list is ordered
city → product → size → color → address (a sublist of that order); `size`
appears only when `product_type` requires a size and `color` only when
the color-required flag is set; `address` never appears unless city,
product and every conditionally required field are non-empty. -/
theorem C2_missing_fields (ctx : OrderCtx) (color_required : Bool) :
    (_build_missing_fields ctx color_required).Sublist
        ["city", "product", "size", "color", "address"] ∧
    ("city" ∈ _build_missing_fields ctx color_required ↔ ctx.city = "") ∧
    ("product" ∈ _build_missing_fields ctx color_required ↔ ctx.product = "") ∧
    ("size" ∈ _build_missing_fields ctx color_required ↔
      (ctx.product_type ∈ _SIZE_REQUIRED_TYPES ∧ ctx.size = "")) ∧
    ("color" ∈ _build_missing_fields ctx color_required ↔
      (color_required ∧ ctx.color = "")) ∧
    ("address" ∈ _build_missing_fields ctx color_required →
      ctx.city ≠ "" ∧ ctx.product ≠ "" ∧
      (ctx.product_type ∈ _SIZE_REQUIRED_TYPES → ctx.size ≠ "") ∧
      (color_required → ctx.color ≠ "")) := by
  unfold _build_missing_fields
  split_ifs <;> simp_all <;> first | tauto | (split <;> decide)

/-- Claim C5, counterexample: in a reachable turn (no prior pending flag,
empty `order_type`, full context except `address`) whose stock check
reports the product unavailable, the engine sets `pending_confirm := true`
for the pre-order offer while the missing-fields list is `["address"]`,
not empty — and no order summary was shown. -/
theorem C5_counterexample :
    pendingAfterTurn false false false
        ⟨"Алматы", "Jimmy Choo Azia", "shoes", "38", "черные", ""⟩ "" true true false = true ∧
    _build_missing_fields ⟨"Алматы", "Jimmy Choo Azia", "shoes", "38", "черные", ""⟩ true =
      ["address"] := by
  decide

/-- Claim C5 (amended): over one engine turn, `pending_confirm` can end
the turn true only when the missing-fields list is empty (the summary or
pre-order branches) or when the list is exactly `["address"]` and the
stock check reported the product unavailable (the pre-order offer).  An
explicit confirmation always clears it, and a non-confirmation reply
while a pre-order offer was pending clears it (alternatives are
offered).  A non-confirmation reply in any other pending state clears
the flag at line 1042 but the turn falls through and may legitimately
set it again (a re-shown summary at line 1214 or a pre-order offer at
line 1133). -/
theorem C5_pending_invariant (prevPending isConfirm isNegative : Bool) (ctx : OrderCtx)
    (orderType : String) (colorRequired stockUnavailable orderSignal : Bool) :
    (pendingAfterTurn prevPending isConfirm isNegative ctx orderType
        colorRequired stockUnavailable orderSignal = true →
      _build_missing_fields ctx colorRequired = [] ∨
      (_build_missing_fields ctx colorRequired = ["address"] ∧ stockUnavailable = true)) ∧
    (prevPending = true → isConfirm = true →
      pendingAfterTurn prevPending isConfirm isNegative ctx orderType
        colorRequired stockUnavailable orderSignal = false) ∧
    (prevPending = true → isConfirm = false → orderType = "preorder" →
      pendingAfterTurn prevPending isConfirm isNegative ctx orderType
        colorRequired stockUnavailable orderSignal = false) := by
  unfold pendingAfterTurn
  split_ifs <;> simp_all <;> tauto

/-- Claim C9: three messages of one conversation buffered within the
debounce window — each new message cancelling and replacing the pending
timer (so the stale generations 0 and 1 fire as no-ops) — produce exactly
one downstream handler call, carrying the three texts newline-joined in
arrival order and the sender identity of the first buffered message. -/
theorem C9_debounce (c s1 s2 s3 t1 t2 t3 : String) :
    (bufRun initBufState
        [.recv c s1 t1, .recv c s2 t2, .recv c s3 t3,
         .fire c 0, .fire c 1, .fire c 2]).2 =
      [⟨c, s1, String.intercalate "\n" [t1, t2, t3]⟩] := by
  simp [bufRun, bufStep, process_incoming_message, _flush_buffer, initBufState]

/-- Deduplication only drops photos: its output is a sublist of its
input. -/
theorem dedupeGo_sublist (seen : List String) (l : List Photo) :
    (dedupeGo seen l).Sublist l := by
  induction l generalizing seen with
  | nil => simp [dedupeGo]
  | cons p rest ih =>
    simp only [dedupeGo]
    split <;> first
      | exact (ih seen).trans (List.sublist_cons_self p rest)
      | exact (ih _).cons₂ p
      | (split <;> first
          | exact (ih seen).trans (List.sublist_cons_self p rest)
          | exact (ih _).cons₂ p)

/-- Claim C6: with a requested color, every photo the picker returns has
a filename containing a synonym of that color (a `_COLOR_PREFIXES` key
mapping to it), at most `limit` photos are returned, and when no photo's
filename matches any synonym the result is empty — a different color is
never substituted. -/
theorem C6_pick_color (photos : List Photo) (color : String) (limit : Nat) :
    (pickProductPhotosColor photos color limit).length ≤ limit ∧
    (∀ p ∈ pickProductPhotosColor photos color limit,
      ∃ cp, (cp, color) ∈ _COLOR_PREFIXES ∧ containsSub (lowerStr p.filename) cp = true) ∧
    ((∀ p ∈ photos,
        ¬∃ cp, (cp, color) ∈ _COLOR_PREFIXES ∧ containsSub (lowerStr p.filename) cp = true) →
      pickProductPhotosColor photos color limit = []) := by
  have hunfold : pickProductPhotosColor photos color limit =
      (dedupeGo [] (photos.filter
        (fun img => (((_COLOR_PREFIXES.filter (fun q => q.2 = color)).map Prod.fst).any
          (fun cp => containsSub (lowerStr img.filename) cp))))).take limit := rfl
  refine ⟨?_, ?_, ?_⟩
  · rw [hunfold]; exact List.length_take_le _ _
  · intro p hp
    rw [hunfold] at hp
    have hp'' := (dedupeGo_sublist _ _).mem (List.mem_of_mem_take hp)
    have hpred := List.of_mem_filter hp''
    rw [List.any_eq_true] at hpred
    obtain ⟨cp, hcp_mem, hcontains⟩ := hpred
    rw [List.mem_map] at hcp_mem
    obtain ⟨q, hq_mem, rfl⟩ := hcp_mem
    have hq2 : q.2 = color := by
      have := List.of_mem_filter hq_mem
      simpa using this
    have hq1 : q ∈ _COLOR_PREFIXES := List.mem_of_mem_filter hq_mem
    refine ⟨q.1, ?_, hcontains⟩
    have : (q.1, color) = q := by cases q; simp_all
    rw [this]; exact hq1
  · intro h
    rw [hunfold]
    have hm : (photos.filter
        (fun img => (((_COLOR_PREFIXES.filter (fun q => q.2 = color)).map Prod.fst).any
          (fun cp => containsSub (lowerStr img.filename) cp)))) = [] := by
      rw [List.filter_eq_nil_iff]
      intro a ha
      intro hpred
      rw [List.any_eq_true] at hpred
      obtain ⟨cp, hcp_mem, hcontains⟩ := hpred
      rw [List.mem_map] at hcp_mem
      obtain ⟨q, hq_mem, rfl⟩ := hcp_mem
      have hq2 : q.2 = color := by
        have := List.of_mem_filter hq_mem
        simpa using this
      have hq1 : q ∈ _COLOR_PREFIXES := List.mem_of_mem_filter hq_mem
      refine h a ha ⟨q.1, ?_, hcontains⟩
      have : (q.1, color) = q := by cases q; simp_all
      rw [this]; exact hq1
    rw [hm]
    simp [dedupeGo]

/-- A successful table lookup returns a pair of the table. -/
theorem lookupTable_some_mem {α : Type} {w : String} {v : α} {l : List (String × α)}
    (h : lookupTable w l = some v) : (w, v) ∈ l := by
  induction l with
  | nil => simp [lookupTable] at h
  | cons p rest ih =>
    unfold lookupTable at h
    split at h
    · injection h with h
      rename_i heq
      cases p
      simp_all
    · exact List.mem_cons_of_mem _ (ih h)

/-- Every checked fact about the brand map's keys: none is a stop word,
none is numeric. -/
theorem brand_map_key_facts :
    ∀ p ∈ _BRAND_MAP, p.1 ∉ _STOP_WORDS ∧ isDigitStr p.1 = false := by decide

/-- Every checked fact about the brand map's mapped tokens: none is a
stop word, all are at least 3 characters, none is numeric. -/
theorem brand_map_value_facts :
    ∀ p ∈ _BRAND_MAP, ∀ v ∈ p.2,
      v ∉ _STOP_WORDS ∧ 3 ≤ v.length ∧ isDigitStr v = false := by decide

/-- No stop word is numeric. -/
theorem stop_words_not_digit : ∀ s ∈ _STOP_WORDS, isDigitStr s = false := by decide

/-- A word cannot be both purely alphabetic and purely numeric. -/
theorem alpha_digit_disjoint (s : String) :
    isAlphaStr s = true → isDigitStr s = true → False := by
  intro ha hd
  simp only [isAlphaStr, isDigitStr, Bool.and_eq_true, List.all_eq_true,
    decide_eq_true_iff] at ha hd
  obtain ⟨hne, hall⟩ := ha
  obtain ⟨-, hdall⟩ := hd
  cases hx : s.data with
  | nil => exact hne hx
  | cons c cs =>
    have h1 := hall c (by rw [hx]; exact List.mem_cons_self _ _)
    have h2 := hdall c (by rw [hx]; exact List.mem_cons_self _ _)
    simp only [Bool.or_eq_true, Bool.and_eq_true, decide_eq_true_iff] at h1 h2
    omega

/-- Per-word invariant of the tokenizer's contribution: no stop word, no
short alphabetic token outside the brand map, no numeric token shorter
than 2. -/
theorem tokenContrib_spec (w t : String) (ht : t ∈ tokenContrib w) :
    t ∉ _STOP_WORDS ∧
    (isAlphaStr t = true → t.length < 3 → (lookupTable t _BRAND_MAP).isSome = true) ∧
    (isDigitStr t = true → 2 ≤ t.length) := by
  unfold tokenContrib at ht
  split at ht
  · simp at ht
  · rename_i hstop
    split at ht
    · rename_i mapped hlook
      rcases List.mem_append.mp ht with hmem | hmem
      · have hv := brand_map_value_facts _ (lookupTable_some_mem hlook) t hmem
        exact ⟨hv.1, fun _ hlt => absurd hv.2.1 (by omega), fun hdig => by simp_all⟩
      · have : t = w := by simpa using hmem
        subst this
        have hk := brand_map_key_facts _ (lookupTable_some_mem hlook)
        refine ⟨hstop, fun _ _ => ?_, fun hdig => by simp_all⟩
        rw [hlook]; rfl
    · rename_i hlook
      split at ht
      · rename_i hcond
        have : t = w := by simpa using ht
        subst this
        exact ⟨hstop, fun ha _ => absurd (alpha_digit_disjoint t ha hcond.1) (fun h => h),
          fun _ => hcond.2⟩
      · split at ht
        · rename_i hlen
          have : t = w := by simpa using ht
          subst this
          exact ⟨hstop, fun _ hlt => by omega, fun _ => by omega⟩
        · simp at ht

/-- A numeric word of length at least 2 contributes itself. -/
theorem digit_kept (w : String) (hd : isDigitStr w = true) (hl : 2 ≤ w.length) :
    w ∈ tokenContrib w := by
  have hstop : w ∉ _STOP_WORDS := by
    intro hmem
    have := stop_words_not_digit w hmem
    simp_all
  unfold tokenContrib
  rw [if_neg hstop]
  cases hlook : lookupTable w _BRAND_MAP with
  | some m =>
    exfalso
    have := (brand_map_key_facts _ (lookupTable_some_mem hlook)).2
    simp_all
  | none =>
    rw [if_pos ⟨hd, hl⟩]
    exact List.mem_singleton.mpr rfl

/-- Claim C8: for every input string, the tokenizer's output contains no
stop word and no alphabetic token shorter than 3 characters unless that
token is a key of the normalization table; and a purely numeric extracted
word is kept if and only if its length is at least 2 (output numeric
tokens have length at least 2, and every extracted numeric word of length
at least 2 is in the output). -/
theorem C8_tokenizer (text : String) :
    (∀ t ∈ tokenize_text text,
      t ∉ _STOP_WORDS ∧
      (isAlphaStr t = true → t.length < 3 → (lookupTable t _BRAND_MAP).isSome = true) ∧
      (isDigitStr t = true → 2 ≤ t.length)) ∧
    (∀ w ∈ wordsOf text, isDigitStr w = true → 2 ≤ w.length → w ∈ tokenize_text text) := by
  constructor
  · intro t ht
    rw [tokenize_text, mem_tokenize_iff] at ht
    obtain ⟨w, hw, hc⟩ := ht
    exact tokenContrib_spec w t hc
  · intro w hw hd hl
    rw [tokenize_text, mem_tokenize_iff]
    exact ⟨w, hw, digit_kept w hd hl⟩

/-- Claim C10: every extracted word that is a key of the brand table puts
both itself and all its mapped canonical tokens into the output —
normalization adds tokens and never removes the surface form. -/
theorem C10_brand_words (text w : String) (m : List String)
    (hw : w ∈ wordsOf text) (hm : lookupTable w _BRAND_MAP = some m) :
    w ∈ tokenize_text text ∧ ∀ t ∈ m, t ∈ tokenize_text text := by
  have hmem := lookupTable_some_mem hm
  have hstop : w ∉ _STOP_WORDS := (brand_map_key_facts _ hmem).1
  have hcontrib : ∀ t, t ∈ tokenContrib w ↔ t ∈ m ++ [w] := by
    intro t; unfold tokenContrib; rw [if_neg hstop, hm]
  constructor
  · rw [tokenize_text, mem_tokenize_iff]
    exact ⟨w, hw, (hcontrib w).mpr (by simp)⟩
  · intro t ht
    rw [tokenize_text, mem_tokenize_iff]
    exact ⟨w, hw, (hcontrib t).mpr (by simp [ht])⟩

/-- Claim C10, witness: the word `"шанель"` of `"шанель джумбо"` keeps
its surface form next to the canonical `"chanel"`. -/
theorem C10_brand_words_witness :
    "шанель" ∈ tokenize_text "шанель джумбо" ∧
    ∀ t ∈ ["chanel"], t ∈ tokenize_text "шанель джумбо" :=
  C10_brand_words "шанель джумбо" "шанель" ["chanel"] (by decide) (by decide)


/-- Every color pattern's key is in the priority order list, so a
derived label is either a listed color or `"other"`. -/
theorem patterns_in_order : ∀ p ∈ _COLOR_PATTERNS, p.2 ∈ _COLOR_ORDER := by decide

theorem color_order_nodup : _COLOR_ORDER.Nodup := by decide

theorem color_label_mem (f : String) :
    _color_from_filename f ∈ _COLOR_ORDER ∨ _color_from_filename f = "other" := by
  unfold _color_from_filename
  dsimp only
  split
  · rename_i p h
    left
    exact patterns_in_order p (List.mem_of_find?_eq_some h)
  · right
    rfl

theorem colorPresent_iff (images : List Photo) (c : String) :
    colorPresent images c = true ↔ byColor images c ≠ [] := by
  unfold colorPresent byColor
  rw [List.any_eq_true]
  constructor
  · rintro ⟨i, hi, hc⟩ hnil
    have hmem : i ∈ images.filter
        (fun img => decide (_color_from_filename img.filename = c)) :=
      List.mem_filter.mpr ⟨hi, hc⟩
    rw [hnil] at hmem
    simp at hmem
  · intro hne
    obtain ⟨i, hi⟩ := List.exists_mem_of_ne_nil _ hne
    rw [List.mem_filter] at hi
    exact ⟨i, hi.1, hi.2⟩

theorem headPhoto_label (images : List Photo) (c : String)
    (h : byColor images c ≠ []) :
    _color_from_filename (headPhoto images c).filename = c := by
  unfold headPhoto
  cases hb : byColor images c with
  | nil => exact absurd hb h
  | cons p rest =>
    have : p ∈ byColor images c := by rw [hb]; exact List.mem_cons_self _ _
    have := List.of_mem_filter this
    simpa using this

theorem take_one_of_ne_nil {l : List Photo} (h : l ≠ []) : l.take 1 = [l.headI] := by
  cases l with
  | nil => exact absurd rfl h
  | cons p rest => rfl

theorem takeByColor_one (images : List Photo) (m : Nat) :
    ∀ (cs : List String) (res : List Photo), (∀ c ∈ cs, byColor images c ≠ []) →
      takeByColor images m 1 cs res =
        res ++ (cs.take (m - res.length)).map (headPhoto images) := by
  intro cs
  induction cs with
  | nil => intro res _; simp [takeByColor]
  | cons c rest ih =>
    intro res hpres
    unfold takeByColor
    split
    · rename_i hle
      have : m - res.length = 0 := by omega
      rw [this]
      simp
    · rename_i hlt
      have hres : res.length < m := by omega
      have hone : m - res.length = (m - (res ++ [headPhoto images c]).length) + 1 := by
        simp; omega
      have hcne : byColor images c ≠ [] := hpres c (List.mem_cons_self _ _)
      have hclen : 1 ≤ (byColor images c).length := by
        cases hb : byColor images c with
        | nil => exact absurd hb hcne
        | cons p r => simp
      have htake : min 1 (min (m - res.length) (byColor images c).length) = 1 := by
        omega
      rw [htake]
      dsimp only
      rw [take_one_of_ne_nil hcne]
      rw [ih (res ++ [(byColor images c).headI])
        (fun c' hc' => hpres c' (List.mem_cons_of_mem _ hc'))]
      rw [hone]
      rw [List.take_succ_cons]
      simp [headPhoto]

theorem unlisted_nil (images : List Photo)
    (hno : ∀ i ∈ images, _color_from_filename i.filename ≠ "other") :
    unlistedColors images = [] := by
  unfold unlistedColors
  have : ((images.map (fun img => _color_from_filename img.filename)).filter
      (fun c => c ∉ _COLOR_ORDER)) = [] := by
    rw [List.filter_eq_nil_iff]
    intro c hc
    rw [List.mem_map] at hc
    obtain ⟨i, hi, rfl⟩ := hc
    rcases color_label_mem i.filename with h | h
    · simp [h]
    · exact absurd h (hno i hi)
  rw [this]
  rfl
theorem colorIterOrder_no_other (images : List Photo)
    (hno : ∀ i ∈ images, _color_from_filename i.filename ≠ "other") :
    colorIterOrder images = _COLOR_ORDER.filter (fun c => colorPresent images c) := by
  unfold colorIterOrder
  rw [unlisted_nil images hno]
  show _ ++ sortStrings [] = _
  simp [sortStrings, insSort]

theorem select_no_other_closed (images : List Photo) (hne : images ≠ [])
    (hno : ∀ i ∈ images, _color_from_filename i.filename ≠ "other") :
    select_photos_with_color_variety images 6 1 =
      ((colorIterOrder images).take 6).map (headPhoto images) := by
  have hpres : ∀ c ∈ colorIterOrder images, byColor images c ≠ [] := by
    intro c hc
    rw [colorIterOrder_no_other images hno] at hc
    exact (colorPresent_iff images c).mp (List.of_mem_filter hc)
  have hother : colorPresent images "other" = false := by
    rw [Bool.eq_false_iff]
    intro h
    obtain ⟨i, hi⟩ := List.exists_mem_of_ne_nil _ ((colorPresent_iff images "other").mp h)
    rw [byColor, List.mem_filter] at hi
    exact hno i hi.1 (by simpa using hi.2)
  unfold select_photos_with_color_variety
  rw [if_neg (by simp [hne])]
  dsimp only
  rw [takeByColor_one images 6 (colorIterOrder images) [] hpres]
  rw [hother]
  simp only [Bool.and_false, Bool.false_eq_true, and_false, if_false]
  rw [List.take_of_length_le]
  · simp
  · simp [List.length_take]
theorem colorIterOrder_mem_iff (images : List Photo)
    (hno : ∀ i ∈ images, _color_from_filename i.filename ≠ "other") (c : String) :
    c ∈ colorIterOrder images ↔
      c ∈ images.map (fun i => _color_from_filename i.filename) := by
  rw [colorIterOrder_no_other images hno]
  constructor
  · intro hc
    have hp := List.of_mem_filter hc
    rw [colorPresent_iff] at hp
    obtain ⟨i, hi⟩ := List.exists_mem_of_ne_nil _ hp
    rw [byColor, List.mem_filter] at hi
    rw [List.mem_map]
    exact ⟨i, hi.1, by simpa using hi.2⟩
  · intro hc
    rw [List.mem_map] at hc
    obtain ⟨i, hi, rfl⟩ := hc
    refine List.mem_filter.mpr ⟨?_, ?_⟩
    · rcases color_label_mem i.filename with h | h
      · exact h
      · exact absurd h (hno i hi)
    · rw [colorPresent_iff, byColor]
      intro hnil
      rw [List.filter_eq_nil_iff] at hnil
      exact hnil i hi (by simp)

theorem colorIterOrder_nodup (images : List Photo)
    (hno : ∀ i ∈ images, _color_from_filename i.filename ≠ "other") :
    (colorIterOrder images).Nodup := by
  rw [colorIterOrder_no_other images hno]
  exact color_order_nodup.filter _

theorem colorIterOrder_length (images : List Photo)
    (hno : ∀ i ∈ images, _color_from_filename i.filename ≠ "other") :
    (colorIterOrder images).length =
      ((images.map (fun i => _color_from_filename i.filename)).dedup).length := by
  have hperm : (colorIterOrder images).Perm
      ((images.map (fun i => _color_from_filename i.filename)).dedup) := by
    rw [List.perm_ext_iff_of_nodup (colorIterOrder_nodup images hno)
      (List.nodup_dedup _)]
    intro c
    rw [List.mem_dedup]
    exact colorIterOrder_mem_iff images hno c
  exact hperm.length_eq

/-- Claim C4 (amended): for photos of one product spanning `N >= 3`
distinct derived color labels, NONE of which is `"other"`, the selector
with `maxPerColor=1, maxTotal=6` returns exactly `min(N, 6)` photos and
no two returned photos share a color label.  (With an `"other"` label
present the separate `other` top-up loop duplicates photos already
taken.) -/
theorem C4_color_variety (images : List Photo)
    (hno : ∀ i ∈ images, _color_from_filename i.filename ≠ "other")
    (hN : 3 ≤ ((images.map (fun i => _color_from_filename i.filename)).dedup).length) :
    (select_photos_with_color_variety images 6 1).length =
      min ((images.map (fun i => _color_from_filename i.filename)).dedup).length 6 ∧
    ((select_photos_with_color_variety images 6 1).map
        (fun i => _color_from_filename i.filename)).Nodup := by
  have hne : images ≠ [] := by
    intro h
    subst h
    simp at hN
  rw [select_no_other_closed images hne hno]
  have hpres : ∀ c ∈ colorIterOrder images, byColor images c ≠ [] := by
    intro c hc
    rw [colorIterOrder_no_other images hno] at hc
    exact (colorPresent_iff images c).mp (List.of_mem_filter hc)
  have hlabels : ((colorIterOrder images).take 6).map
      (fun c => _color_from_filename (headPhoto images c).filename) =
      (colorIterOrder images).take 6 := by
    rw [List.map_congr_left, List.map_id]
    intro c hc
    exact headPhoto_label images c (hpres c (List.mem_of_mem_take hc))
  constructor
  · rw [List.length_map, List.length_take, colorIterOrder_length images hno]
    omega
  · rw [List.map_map]
    show (((colorIterOrder images).take 6).map
      (fun c => _color_from_filename (headPhoto images c).filename)).Nodup
    rw [hlabels]
    exact (colorIterOrder_nodup images hno).sublist (List.take_sublist _ _)
/-- Claim C4, counterexample: three photos of one product spanning the
3 distinct labels бежевые, черные and other are selected with
`maxPerColor=1, maxTotal=6`; the post-loop top-up re-adds the already
taken `other` photo, so 4 photos come back instead of `min(3,6) = 3` and
two of them share the label `other`. -/
theorem C4_counterexample :
    (([(⟨"1", "a беж.jpg"⟩ : Photo), ⟨"2", "a черн.jpg"⟩, ⟨"3", "a misc.jpg"⟩].map
        (fun i => _color_from_filename i.filename)).dedup).length = 3 ∧
    (select_photos_with_color_variety
        [⟨"1", "a беж.jpg"⟩, ⟨"2", "a черн.jpg"⟩, ⟨"3", "a misc.jpg"⟩] 6 1).length ≠
      min 3 6 ∧
    ¬ ((select_photos_with_color_variety
        [⟨"1", "a беж.jpg"⟩, ⟨"2", "a черн.jpg"⟩, ⟨"3", "a misc.jpg"⟩] 6 1).map
          (fun i => _color_from_filename i.filename)).Nodup := by
  decide

/-- Claim C4, witness: three photos in three listed colors come back
exactly once each. -/
theorem C4_color_variety_witness :
    (select_photos_with_color_variety
        [(⟨"1", "a беж.jpg"⟩ : Photo), ⟨"2", "a черн.jpg"⟩, ⟨"3", "a розов.jpg"⟩] 6 1).length =
      min (([(⟨"1", "a беж.jpg"⟩ : Photo), ⟨"2", "a черн.jpg"⟩, ⟨"3", "a розов.jpg"⟩].map
        (fun i => _color_from_filename i.filename)).dedup).length 6 ∧
    ((select_photos_with_color_variety
        [(⟨"1", "a беж.jpg"⟩ : Photo), ⟨"2", "a черн.jpg"⟩, ⟨"3", "a розов.jpg"⟩] 6 1).map
          (fun i => _color_from_filename i.filename)).Nodup :=
  C4_color_variety _ (by decide) (by decide)

/-- Stable insertion permutes. -/
theorem insertLe_perm {α : Type} (le : α → α → Bool) (x : α) (l : List α) :
    (insertLe le x l).Perm (x :: l) := by
  induction l with
  | nil => rfl
  | cons y ys ih =>
    unfold insertLe
    split
    · rfl
    · exact ((ih.cons y).trans (List.Perm.swap x y ys))

/-- The insertion sort is a permutation of its input. -/
theorem insSort_perm {α : Type} (le : α → α → Bool) (l : List α) :
    (insSort le l).Perm l := by
  induction l with
  | nil => rfl
  | cons x xs ih => exact (insertLe_perm le x (insSort le xs)).trans (ih.cons x)

/-- The head of the descending-by-score sort is a maximum of the
list. -/
theorem insSort_ge_head :
    ∀ (l : List (Nat × Photo)) (x : Nat × Photo) (xs : List (Nat × Photo)),
      insSort (fun a b => b.1 ≤ a.1) l = x :: xs →
      x ∈ l ∧ ∀ p ∈ l, p.1 ≤ x.1 := by
  intro l
  induction l with
  | nil => intro x xs h; simp [insSort] at h
  | cons a t ih =>
    intro x xs h
    unfold insSort at h
    cases hs : insSort (fun a b => decide (b.1 ≤ a.1)) t with
    | nil =>
      have ht : t = [] := by
        have hp := insSort_perm (fun a b => decide (b.1 ≤ a.1)) t
        rw [hs] at hp
        exact hp.symm.eq_nil
      rw [hs] at h
      unfold insertLe at h
      have hax : x = a := by injection h with h1 _; exact h1.symm
      subst hax
      subst ht
      refine ⟨List.mem_cons_self _ _, ?_⟩
      intro p hp
      simp at hp
      simp [hp]
    | cons b r =>
      obtain ⟨hbmem, hbmax⟩ := ih b r hs
      rw [hs] at h
      unfold insertLe at h
      split at h
      · rename_i hge
        have hax : x = a := by injection h with h1 _; exact h1.symm
        subst hax
        simp only [decide_eq_true_eq] at hge
        refine ⟨List.mem_cons_self _ _, ?_⟩
        intro p hp
        rcases List.mem_cons.mp hp with rfl | hp
        · exact le_refl _
        · exact le_trans (hbmax p hp) hge
      · rename_i hlt
        have hbx : x = b := by injection h with h1 _; exact h1.symm
        subst hbx
        simp only [decide_eq_true_eq] at hlt
        refine ⟨List.mem_cons_of_mem _ hbmem, ?_⟩
        intro p hp
        rcases List.mem_cons.mp hp with rfl | hp
        · omega
        · exact hbmax p hp
/-- Membership in the scored list: exactly the indexed images whose
score reaches the minimum, paired with their scores. -/
theorem mem_scoredList {all : List Photo} {e : List String} {ms : Nat}
    {s : Nat} {p : Photo} :
    (s, p) ∈ scoredList all e ms ↔
      p ∈ all ∧ _match_score e p.filename = s ∧ ms ≤ s := by
  unfold scoredList
  rw [List.mem_filterMap]
  constructor
  · rintro ⟨img, himg, hf⟩
    dsimp only at hf
    split at hf
    · rename_i hge
      have hpair := Option.some.inj hf
      have h1 : _match_score e img.filename = s := congrArg Prod.fst hpair
      have h2 : img = p := congrArg Prod.snd hpair
      subst h2
      exact ⟨himg, h1, h1 ▸ hge⟩
    · exact absurd hf (by simp)
  · rintro ⟨hp, hscore, hge⟩
    refine ⟨p, hp, ?_⟩
    dsimp only
    rw [hscore, if_pos hge]
/-- The running maximum is bounded by any common bound. -/
theorem foldr_max_le {L : List Nat} {m : Nat} (h : ∀ x ∈ L, x ≤ m) :
    L.foldr max 0 ≤ m := by
  induction L with
  | nil => simp
  | cons x t ih =>
    simp only [List.foldr_cons]
    have h1 := h x (List.mem_cons_self _ _)
    have h2 := ih (fun y hy => h y (List.mem_cons_of_mem _ hy))
    omega
/-- Every element bounds the running maximum from below. -/
theorem le_foldr_max {L : List Nat} {x : Nat} (h : x ∈ L) :
    x ≤ L.foldr max 0 := by
  induction L with
  | nil => simp at h
  | cons y t ih =>
    simp only [List.foldr_cons]
    rcases List.mem_cons.mp h with rfl | h
    · omega
    · have := ih h
      omega
/-- The running maximum is zero or attained. -/
theorem foldr_max_mem (L : List Nat) : L.foldr max 0 = 0 ∨ L.foldr max 0 ∈ L := by
  induction L with
  | nil => left; rfl
  | cons x t ih =>
    simp only [List.foldr_cons]
    rcases ih with h | h
    · rw [h]
      right
      simp [List.mem_cons]
    · rcases Nat.le_total x (t.foldr max 0) with hle | hle
      · right
        rw [Nat.max_eq_right hle]
        exact List.mem_cons_of_mem _ h
      · right
        rw [Nat.max_eq_left hle]
        exact List.mem_cons_self _ _
/-- Specification of the scored tier's tail: below the minimum the
result is empty; otherwise the result is exactly the photos whose score
equals the maximum over all indexed photos. -/
theorem bestTier_spec (all : List Photo) (e : List String) (ms : Nat) (hms : 1 ≤ ms) :
    (((all.map (fun img => _match_score e img.filename)).foldr max 0 < ms →
        bestTierResult (scoredList all e ms) = []) ∧
     (ms ≤ (all.map (fun img => _match_score e img.filename)).foldr max 0 →
        ∀ p, p ∈ bestTierResult (scoredList all e ms) ↔
          (p ∈ all ∧ _match_score e p.filename =
            (all.map (fun img => _match_score e img.filename)).foldr max 0))) := by
  unfold bestTierResult
  cases hsort : insSort (fun a b => decide (b.1 ≤ a.1)) (scoredList all e ms) with
  | nil =>
    have hscored : scoredList all e ms = [] := by
      have hp := insSort_perm (fun a b => decide (b.1 ≤ a.1)) (scoredList all e ms)
      rw [hsort] at hp
      exact hp.symm.eq_nil
    have hall_lt : ∀ img ∈ all, _match_score e img.filename < ms := by
      intro img himg
      by_contra hge
      push_neg at hge
      have : (_match_score e img.filename, img) ∈ scoredList all e ms :=
        mem_scoredList.mpr ⟨himg, rfl, hge⟩
      rw [hscored] at this
      simp at this
    constructor
    · intro _
      rfl
    · intro hM
      exfalso
      rcases foldr_max_mem (all.map (fun img => _match_score e img.filename)) with h0 | hmem
      · omega
      · rw [List.mem_map] at hmem
        obtain ⟨img, himg, heq⟩ := hmem
        have := hall_lt img himg
        omega
  | cons b rest =>
    obtain ⟨hbmem, hbmax⟩ := insSort_ge_head _ b rest hsort
    have hperm : (b :: rest).Perm (scoredList all e ms) := by
      have hp := insSort_perm (fun a b => decide (b.1 ≤ a.1)) (scoredList all e ms)
      rw [hsort] at hp
      exact hp
    have hb := mem_scoredList.mp (by rw [show (b.1, b.2) = b from rfl]; exact hbmem)
    have hM_eq : (all.map (fun img => _match_score e img.filename)).foldr max 0 = b.1 := by
      apply Nat.le_antisymm
      · apply foldr_max_le
        intro x hx
        rw [List.mem_map] at hx
        obtain ⟨img, himg, rfl⟩ := hx
        by_cases hge : ms ≤ _match_score e img.filename
        · have : (_match_score e img.filename, img) ∈ scoredList all e ms :=
            mem_scoredList.mpr ⟨himg, rfl, hge⟩
          exact hbmax _ this
        · push_neg at hge
          omega
      · have : _match_score e b.2.filename ∈
            all.map (fun img => _match_score e img.filename) :=
          List.mem_map.mpr ⟨b.2, hb.1, rfl⟩
        have hle := le_foldr_max this
        rw [hb.2.1] at hle
        exact hle
    constructor
    · intro hlt
      exfalso
      omega
    · intro _
      intro p
      rw [hM_eq]
      constructor
      · intro hp
        rw [List.mem_map] at hp
        obtain ⟨x, hx, rfl⟩ := hp
        rw [List.mem_filter] at hx
        obtain ⟨hxmem, hxeq⟩ := hx
        simp only [decide_eq_true_eq] at hxeq
        have hxscored := hperm.mem_iff.mp hxmem
        have := mem_scoredList.mp (by rw [show (x.1, x.2) = x from rfl]; exact hxscored)
        exact ⟨this.1, by rw [this.2.1, hxeq]⟩
      · rintro ⟨hp, hscore⟩
        have hscored : (b.1, p) ∈ scoredList all e ms :=
          mem_scoredList.mpr ⟨hp, hscore, hb.2.2⟩
        have hmem := hperm.mem_iff.mpr hscored
        rw [List.mem_map]
        refine ⟨(b.1, p), ?_, rfl⟩
        rw [List.mem_filter]
        exact ⟨hmem, by simp⟩
/-- The minimum acceptable score is 1 or 2, never 0. -/
theorem minScoreFor_pos (product_name : String) : 1 ≤ minScoreFor product_name := by
  unfold minScoreFor
  split <;> omega

/-- Expanding no tokens yields no tokens. -/
theorem expandTokens_nil : expandTokens [] = [] := rfl

/-- Claim C7: on the token-scored tier, when the maximum token-overlap
score `M` over all indexed photos (with the category-expanded query token
set) is below the minimum acceptable score — 2 for queries with at least
2 meaningful words, 1 otherwise, by `minScoreFor` — the result is the
empty list, a valid outcome; otherwise the result is exactly the photos
whose score equals `M`. -/
theorem C7_token_search (index : List (String × List Photo)) (product_name : String) :
    (((allIndexImages index).map
        (fun img => _match_score (expandTokens (_tokenize product_name)) img.filename)).foldr
          max 0 < minScoreFor product_name →
      findProductPhotosTokenTier index product_name = []) ∧
    (minScoreFor product_name ≤
        ((allIndexImages index).map
          (fun img => _match_score (expandTokens (_tokenize product_name)) img.filename)).foldr
            max 0 →
      ∀ p, p ∈ findProductPhotosTokenTier index product_name ↔
        (p ∈ allIndexImages index ∧
          _match_score (expandTokens (_tokenize product_name)) p.filename =
            ((allIndexImages index).map
              (fun img =>
                _match_score (expandTokens (_tokenize product_name)) img.filename)).foldr
              max 0)) := by
  by_cases hq : _tokenize product_name = []
  · have hM : ((allIndexImages index).map
        (fun img => _match_score (expandTokens (_tokenize product_name)) img.filename)).foldr
          max 0 = 0 := by
      apply Nat.le_antisymm _ (Nat.zero_le _)
      apply foldr_max_le
      intro x hx
      rw [List.mem_map] at hx
      obtain ⟨img, _, rfl⟩ := hx
      rw [hq, expandTokens_nil]
      exact Nat.le_refl 0
    have htier : findProductPhotosTokenTier index product_name = [] := by
      unfold findProductPhotosTokenTier
      rw [if_pos hq]
    have hms := minScoreFor_pos product_name
    exact ⟨fun _ => htier, fun hle => absurd hle (by omega)⟩
  · have htier : findProductPhotosTokenTier index product_name =
        bestTierResult (scoredList (allIndexImages index)
          (expandTokens (_tokenize product_name)) (minScoreFor product_name)) := by
      unfold findProductPhotosTokenTier
      rw [if_neg hq]
    rw [htier]
    exact bestTier_spec (allIndexImages index) (expandTokens (_tokenize product_name))
      (minScoreFor product_name) (minScoreFor_pos product_name)

end Ottenok
